import Mathlib

/-!
Verification development for the AI-Code-System repository.

The Python sources (`reasoner.py`, `project_manager.py`) are shallowly
embedded below.  Text is modelled as `List Char`; the filesystem, the
current working directory and the external reasoning/completion service
are modelled as an explicit environment record, since the repository
treats them as black boxes.  Each definition mirrors one Python function
and keeps its name where Lean allows it.
-/

namespace AICS

/-- Convert a string literal to the `List Char` representation used
throughout this development. -/
def toL (s : String) : List Char := s.toList

/-- ASCII whitespace, as recognised by Python's `str.strip`, `str.split`
and the regex class `\s` (restricted to the ASCII range, which is all the
embedded inputs use). -/
def isSpaceChar (c : Char) : Bool :=
  c = ' ' || c = '\t' || c = '\n' || c = '\r' || c = '\x0b' || c = '\x0c'

/-- Python `str.strip()`: drop leading and trailing whitespace. -/
def stripChars (l : List Char) : List Char :=
  ((l.dropWhile isSpaceChar).reverse.dropWhile isSpaceChar).reverse

/-- Python `str.lower()` (ASCII case folding). -/
def lowerStr (l : List Char) : List Char := l.map Char.toLower

/-- If `pat` is a prefix of `l`, return the remainder of `l`; otherwise
`none`.  This is the basic matcher used to model literal occurrences. -/
def dropExact : List Char → List Char → Option (List Char)
  | [], l => some l
  | _ :: _, [] => none
  | p :: ps, c :: cs => if c = p then dropExact ps cs else none

/-- Python `pat in l` would be `containsSub pat l`: does `pat` occur as a
contiguous substring of `l`? -/
def containsSub (pat : List Char) : List Char → Bool
  | [] => (dropExact pat []).isSome
  | l@(_ :: cs) => (dropExact pat l).isSome || containsSub pat cs

/-- The suffix of `l` immediately after the first (leftmost) occurrence of
`pat`, or `none` when `pat` does not occur. -/
def afterFirst (pat : List Char) : List Char → Option (List Char)
  | [] => dropExact pat []
  | l@(_ :: cs) =>
    match dropExact pat l with
    | some rest => some rest
    | none => afterFirst pat cs

/-- The prefix of `l` strictly before the first occurrence of `pat`
(`l` itself when `pat` does not occur).  Models the behaviour of a lazy
capture bounded by the lookahead `(?=pat|\Z)`. -/
def upToFirst (pat : List Char) : List Char → List Char
  | [] => []
  | l@(c :: cs) =>
    if (dropExact pat l).isSome then [] else c :: upToFirst pat cs

/-- Structural worker for `removeAll`: the fuel only bounds the
recursion depth (each step strictly shortens the text, so an initial
fuel of the text's length is always sufficient and the zero-fuel arm is
unreachable on such calls). -/
def removeAllFuel : Nat → Char → List Char → List Char → List Char
  | 0, _, _, l => l
  | _ + 1, _, _, [] => []
  | n + 1, p, ps, c :: cs =>
    if c = p ∧ (dropExact ps cs).isSome then
      removeAllFuel n p ps ((dropExact ps cs).getD cs)
    else c :: removeAllFuel n p ps cs

/-- Python `s.replace(pat, "")` for a non-empty `pat`: delete every
(left-to-right, non-overlapping) occurrence of `p :: ps`. -/
def removeAll (p : Char) (ps : List Char) (l : List Char) : List Char :=
  removeAllFuel l.length p ps l

/-- Python `str.split()` worker: `acc` is the reversed current word. -/
def splitWsAux : List Char → List Char → List (List Char)
  | [], acc => if acc.isEmpty then [] else [acc.reverse]
  | c :: cs, acc =>
    if isSpaceChar c then
      if acc.isEmpty then splitWsAux cs [] else acc.reverse :: splitWsAux cs []
    else splitWsAux cs (c :: acc)

/-- Python `str.split()` with no argument: split on runs of whitespace,
discarding empty pieces. -/
def splitWs (l : List Char) : List (List Char) := splitWsAux l []

/-- Python `text.split('\n')`: split on every newline, keeping empty
pieces (so the result is always non-empty). -/
def splitLines : List Char → List (List Char)
  | [] => [[]]
  | c :: cs =>
    if c = '\n' then [] :: splitLines cs
    else
      match splitLines cs with
      | [] => [[c]]
      | x :: xs => (c :: x) :: xs

/-- Python `'\n'.join(lines)`. -/
def joinLines : List (List Char) → List Char
  | [] => []
  | [x] => x
  | x :: y :: ys => x ++ '\n' :: joinLines (y :: ys)

/-- Python `int(l)` on an already-stripped decimal numeral: optional sign
followed by one or more ASCII digits; anything else raises `ValueError`,
modelled as `none`.  (Python additionally accepts underscore digit
separators and non-ASCII digits, which nothing in the source's menus can
produce.) -/
def parseIntQ (l : List Char) : Option Int :=
  let core : List Char → Option Int := fun ds =>
    if !ds.isEmpty && ds.all Char.isDigit then
      some ((ds.foldl (fun a c => a * 10 + (c.toNat - 48)) 0 : Nat) : Int)
    else none
  match l with
  | '+' :: ds => core ds
  | '-' :: ds => (core ds).map (fun n => -n)
  | ds => core ds

/-- Python `l.startswith(pat)`, i.e. `(dropExact pat l).isSome`. -/
def startsWithL (pat l : List Char) : Bool := (dropExact pat l).isSome

/-! ## PathResolver, i.e. `Reasoner.extract_path` (reasoner.py lines 97-148)

The source tries five regular expressions in order and falls back to a
token scan.  The regexes are written as Python *raw* strings, so in
`r'project[\\s][^\\s]*'` the class `[\\s]` denotes the two characters
backslash and `s` (NOT whitespace), and `[^\\s]` denotes any character
other than backslash and `s`.  Only the first pattern
`r'\/[^\s]*\/[^\s]*'` and the prefix of the second use a genuine `\s`.
The matchers below reproduce the leftmost-match, greedy-with-backtracking
semantics of `re.search` for these specific patterns. -/

/-- Is `c` matched by the (buggy) class `[\\s]`, i.e. is it a backslash
or the letter `s`? -/
def isBackslashOrS (c : Char) : Bool := c = '\\' || c = 's'

/-- Attempt `r'\/[^\s]*\/[^\s]*'` anchored at the head of `l`.  A match
requires a leading `/` and a second `/` inside the maximal run of
non-whitespace characters that follows; greedy backtracking then extends
the match to the end of that run. -/
def matchUnixAt (l : List Char) : Option (List Char) :=
  match l with
  | '/' :: rest =>
    if (rest.takeWhile (fun c => !isSpaceChar c)).contains '/' then
      some ('/' :: rest.takeWhile (fun c => !isSpaceChar c))
    else none
  | _ => none

/-- Attempt `r'[A-Za-z]:\\[^\\s]*'` anchored at the head of `l`: an ASCII
letter, `:`, a literal backslash, then the maximal run of characters that
are neither backslash nor `s`. -/
def matchWinAt (l : List Char) : Option (List Char) :=
  match l with
  | c :: ':' :: '\\' :: rest =>
    if c.isAlpha then
      some (c :: ':' :: '\\' :: rest.takeWhile (fun d => !isBackslashOrS d))
    else none
  | _ => none

/-- Attempt `r'kw[\\s][^\\s]*'` anchored at the head of `l` (`kw` is
`project`, `directory` or `path`): the literal keyword, one character
from `{backslash, 's'}`, then the maximal run of characters outside that
class. -/
def matchKwAt (kw : List Char) (l : List Char) : Option (List Char) :=
  match dropExact kw l with
  | some (c :: rest) =>
    if isBackslashOrS c then
      some (kw ++ c :: rest.takeWhile (fun d => !isBackslashOrS d))
    else none
  | _ => none

/-- Model of `re.search`: try the anchored matcher at every position from the left
and return the first (leftmost) match.  None of the five patterns can
match the empty string, so the position at end-of-text never matches. -/
def searchFrom (attempt : List Char → Option (List Char)) :
    List Char → Option (List Char)
  | [] => none
  | l@(_ :: cs) =>
    match attempt l with
    | some m => some m
    | none => searchFrom attempt cs

/-- The five patterns of `extract_path`, tried in source order. -/
def patternSearch (input : List Char) : Option (List Char) :=
  match searchFrom matchUnixAt input with
  | some m => some m
  | none =>
  match searchFrom matchWinAt input with
  | some m => some m
  | none =>
  match searchFrom (matchKwAt (toL "project")) input with
  | some m => some m
  | none =>
  match searchFrom (matchKwAt (toL "directory")) input with
  | some m => some m
  | none => searchFrom (matchKwAt (toL "path")) input

/-- The clean-up applied to a pattern match:
`path.replace("project ", "").replace("directory ", "").replace("path ", "")`. -/
def cleanupMatch (m : List Char) : List Char :=
  removeAll 'p' (toL "ath ")
    (removeAll 'd' (toL "irectory ")
      (removeAll 'p' (toL "roject ") m))

/-- The stop list of the token-scan fallback (reasoner.py lines 124-125). -/
def stopWords : List (List Char) :=
  [toL "analyze", toL "scan", toL "review", toL "check", toL "project",
   toL "directory", toL "path", toL "for", toL "the", toL "a", toL "an",
   toL "security", toL "issues", toL "1", toL "2", toL "3", toL "4", toL "5"]

/-- The external world as the Reasoner sees it: the filesystem
(`os.path.exists`/`os.path.isdir` combined, `os.getcwd`, `os.path.abspath`)
and the black-box completion service.  Each service call is modelled as an
arbitrary function of the arguments the source feeds it; scan results are
folded into these oracles since they are themselves functions of the
project path. -/
structure Env where
  /-- `os.path.exists p && os.path.isdir p`. -/
  isDir : List Char → Bool
  /-- `os.getcwd()`. -/
  cwd : List Char
  /-- `os.path.abspath`. -/
  abspath : List Char → List Char
  /-- Reasoning-service response to the project-assessment prompt built
  from the user input and the validated project path (already stripped). -/
  aiDecision : List Char → List Char → List Char
  /-- `generate_fix_code` outcome for a recommendations text that is
  neither empty nor the "No recommendations" sentinel (`none` models the
  exception path that returns `None`). -/
  fixCode : List Char → Option (List Char)
  /-- Reasoning-service response to the completeness-classification
  prompt (already stripped). -/
  classify : List Char → List Char
  /-- Reasoning-service response to the prompt-optimization prompt
  (already stripped). -/
  optimize : List Char → List Char
  /-- `Coder.generate_code` output for the optimized prompt. -/
  genCode : List Char → List Char

/-- Python `os.path.join(a, b)` (POSIX): an absolute `b` wins; otherwise the
separator is inserted unless `a` is empty or already ends in `/`. -/
def joinPath (a b : List Char) : List Char :=
  if b.head? = some '/' then b
  else if a.isEmpty then b
  else if a.getLast? = some '/' then a ++ b
  else a ++ '/' :: b

/-- The token-scan fallback: walk the whitespace-separated words, skip
stop words, and for every remaining word test it literally and joined to
the current directory, collecting the distinct absolute paths of the
existing directories (Python uses a `set`; modelled as first-insertion
order, which no proved claim depends on). -/
def collectCandidates (env : Env) (acc : List (List Char)) :
    List (List Char) → List (List Char)
  | [] => acc
  | w :: ws =>
    if stopWords.contains (lowerStr w) then collectCandidates env acc ws
    else
      let acc1 := if env.isDir w then
          (if acc.contains (env.abspath w) then acc else acc ++ [env.abspath w])
        else acc
      let p := joinPath env.cwd w
      let acc2 := if env.isDir p then
          (if acc1.contains (env.abspath p) then acc1 else acc1 ++ [env.abspath p])
        else acc1
      collectCandidates env acc2 ws

/-- The mutable conversation state owned by the `Reasoner` instance
(fields of `self` that `analyze`/`extract_path`/`handle_path_selection`
read or write; `current_context` and the tool table are write-only or
constant and are omitted). -/
structure RState where
  current_project_path : Option (List Char)
  ambiguous_paths : List (List Char)
  waiting_for_path_selection : Bool
  original_request : List Char
  /-- The path a `ProjectManager` was last constructed for. -/
  project_manager : Option (List Char)
deriving DecidableEq, Repr

/-- The state established by `Reasoner.__init__`. -/
def initState : RState :=
  { current_project_path := none
    ambiguous_paths := []
    waiting_for_path_selection := false
    original_request := []
    project_manager := none }

/-- The `"AMBIGUOUS"` sentinel string returned by `extract_path`. -/
def ambiguousMark : List Char := toL "AMBIGUOUS"

/-- The source's `Reasoner.extract_path` (reasoner.py lines 97-148).  Returns the
updated state (the multi-candidate branch stores
`self.ambiguous_paths`) and the Python return value: `none` for `None`,
otherwise the returned string. -/
def extract_path (env : Env) (st : RState) (input : List Char) :
    RState × Option (List Char) :=
  match patternSearch input with
  | some m => (st, some (cleanupMatch m))
  | none =>
    match collectCandidates env [] (splitWs input) with
    | [] => (st, none)
    | [p] => (st, some p)
    | ps => ({ st with ambiguous_paths := ps }, some ambiguousMark)

/-- The source's `Reasoner.handle_path_selection` (reasoner.py lines 150-172). -/
def handle_path_selection (env : Env) (st : RState) (input : List Char) :
    RState × List Char :=
  match parseIntQ (stripChars input) with
  | some n =>
    let selection : Int := n - 1
    if 0 ≤ selection ∧ selection < (st.ambiguous_paths.length : Int) then
      ({ st with ambiguous_paths := [], waiting_for_path_selection := false },
       st.ambiguous_paths.getD selection.toNat [])
    else
      (st, toL "QUESTION: Invalid selection. Please choose a number from the list.")
  | none =>
    if env.isDir input then
      ({ st with ambiguous_paths := [], waiting_for_path_selection := false },
       input)
    else
      (st, toL "QUESTION: Please enter a valid number from the list or provide a full path.")

/-! ## ReportExtractor (reasoner.py lines 322-331)

Each field is extracted with
`re.search(r"LABEL:\s*(.*?)(?=NEXT:|\Z)", decision, re.DOTALL)`.
With DOTALL the lazy group stops at the first position at or after the
content start where the stop label begins (`\Z` always succeeds at the
end, so the search succeeds exactly when the label occurs); the leading
`\s*` is greedy, and `.group(1)` is then `.strip()`-ed.  The `QUESTIONS:`
field uses `(.*)$`, which under DOTALL captures to the end of the text. -/

/-- One labeled section: everything after the first occurrence of
`label`, with leading whitespace removed, truncated at the first
occurrence of `stop`, stripped. -/
def extractSection (label stop text : List Char) : Option (List Char) :=
  (afterFirst label text).map fun rest =>
    stripChars (upToFirst stop (rest.dropWhile isSpaceChar))

/-- The final section: everything after the first occurrence of `label`,
stripped. -/
def extractFinalSection (label text : List Char) : Option (List Char) :=
  (afterFirst label text).map fun rest =>
    stripChars (rest.dropWhile isSpaceChar)

/-- The four fields recovered from one reasoning-service response. -/
structure Report where
  assessment : List Char
  risk_level : List Char
  recommendations : List Char
  questions : List Char
deriving DecidableEq, Repr

/-- The four extractions with their defaults (reasoner.py 323-331). -/
def reportExtract (decision : List Char) : Report :=
  { assessment :=
      (extractSection (toL "ASSESSMENT:") (toL "RISK_LEVEL:") decision).getD
        (toL "No assessment provided")
    risk_level :=
      (extractSection (toL "RISK_LEVEL:") (toL "RECOMMENDATIONS:") decision).getD
        (toL "Unknown")
    recommendations :=
      (extractSection (toL "RECOMMENDATIONS:") (toL "QUESTIONS:") decision).getD
        (toL "No recommendations")
    questions :=
      (extractFinalSection (toL "QUESTIONS:") decision).getD (toL "null") }

/-! ## DialogueController, i.e. `Reasoner.analyze` (reasoner.py lines 228-424) -/

/-- The project keywords (reasoner.py 248-249); the request is a project
request when any of them occurs in the lowercased input. -/
def projectKeywords : List (List Char) :=
  [toL "project", toL "directory", toL "file", toL "scan", toL "audit",
   toL "fix", toL "vulnerability", toL "review", toL "analyze",
   toL "check", toL "security"]

/-- The classification test `is_project_request` (reasoner.py 250). -/
def is_project_request (input : List Char) : Bool :=
  projectKeywords.any fun kw => containsSub kw (lowerStr input)

/-- Python truthiness of the extracted path
(`if is_project_request or project_path:` / `if project_path:`). -/
def optTruthy : Option (List Char) → Bool
  | none => false
  | some s => !s.isEmpty

/-- The question listing the ambiguous candidates with 1-based indices
(reasoner.py 258-259). -/
def ambiguousQuestion (ps : List (List Char)) : List Char :=
  toL "QUESTION: I found multiple directories with that name. Which one did you mean?\n"
    ++ joinLines (ps.enum.map fun ip =>
        (Nat.toDigits 10 (ip.1 + 1)) ++ toL ". " ++ ip.2)
    ++ toL "\nPlease enter the number:"

/-- The report assembled in the validated-path branch (reasoner.py
270-363): one reasoning call, four-field extraction, optional fix-code
generation, fixed formatting, and a question prefix when the extracted
`questions` field is not the `"null"` sentinel. -/
def scanBranchResponse (env : Env) (input p : List Char) : List Char :=
  let decision := stripChars (env.aiDecision input p)
  let rep := reportExtract decision
  let fix_code : Option (List Char) :=
    if rep.recommendations = toL "No recommendations" then none
    else if rep.recommendations.isEmpty then none
    else env.fixCode rep.recommendations
  let base :=
    toL "\nSECURITY ASSESSMENT REPORT\n==========================\nRisk Level: "
      ++ rep.risk_level
      ++ toL "\n\nAssessment:\n" ++ rep.assessment
      ++ toL "\n\nRecommendations:\n" ++ rep.recommendations ++ toL "\n"
  let final_response :=
    match fix_code with
    | some fc =>
      base ++ toL "\n\nAUTOMATED FIXES:\n================\nHere's code to implement the recommendations:\n\n"
           ++ fc ++ toL "\n"
    | none => base
  if rep.questions = toL "null" then final_response
  else toL "QUESTION: " ++ rep.questions ++ toL "\n\n" ++ final_response

/-- The non-project branch (reasoner.py 369-424): one classification
call; the `CODE_GENERATION_APPROVED` sentinel triggers prompt
optimization and code generation, anything else is echoed as a
question. -/
def nonProjectResponse (env : Env) (input : List Char) : List Char :=
  let decision := stripChars (env.classify input)
  if decision = toL "CODE_GENERATION_APPROVED" then
    env.genCode (stripChars (env.optimize input))
  else toL "QUESTION: " ++ decision

/-- The body of `analyze` after the path-selection gate (reasoner.py
244-424): store the original request, classify, extract a path, then
branch on ambiguity / validated path / missing path / non-project. -/
def analyzeFresh (env : Env) (st0 : RState) (input : List Char) :
    RState × List Char :=
  let st1 := { st0 with original_request := input }
  let isProj := is_project_request input
  let ex := extract_path env st1 input
  let st2 := ex.1
  let pathOpt := ex.2
  if pathOpt = some ambiguousMark then
    ({ st2 with waiting_for_path_selection := true },
     ambiguousQuestion st2.ambiguous_paths)
  else if isProj || optTruthy pathOpt then
    if optTruthy pathOpt then
      let p := pathOpt.getD []
      if !env.isDir p then
        (st2, toL "QUESTION: The path '" ++ p
              ++ toL "' doesn't exist or is not a directory. Please provide a valid path.")
      else
        ({ st2 with current_project_path := some p, project_manager := some p },
         scanBranchResponse env input p)
    else
      (st2, toL "QUESTION: Please provide the path to the project you want me to analyze.")
  else
    (st2, nonProjectResponse env input)

/-- The source's `Reasoner.analyze` (reasoner.py 228-424).  When a selection is
pending, the selection is resolved first; a non-question selection
result stores the path and re-analyzes the stored original request
(the source recurses into `analyze`, which then necessarily takes the
fresh branch because the selection cleared the flag - the recursion is
inlined as `analyzeFresh`). -/
def analyze (env : Env) (st : RState) (input : List Char) :
    RState × List Char :=
  if st.waiting_for_path_selection then
    if startsWithL (toL "QUESTION:") (handle_path_selection env st input).2 then
      handle_path_selection env st input
    else
      analyzeFresh env
        { (handle_path_selection env st input).1 with
          current_project_path := some (handle_path_selection env st input).2 }
        st.original_request
  else analyzeFresh env st input

/-! ## Deduplication: `Reasoner.deduplicate_recommendations` (reasoner.py lines 11-26) -/

/-- The loop body: keep a line when its stripped form is non-empty and
was not seen before; the *stripped* form is recorded in `seen`, the
*original* line is kept.  (Python uses a `set` for `seen`; only
membership is observed, so a list models it exactly.) -/
def dedupLines (seen : List (List Char)) : List (List Char) → List (List Char)
  | [] => []
  | line :: rest =>
    let clean := stripChars line
    if !clean.isEmpty && !seen.contains clean then
      line :: dedupLines (clean :: seen) rest
    else dedupLines seen rest

/-- The source's `Reasoner.deduplicate_recommendations`: split on newlines, filter,
rejoin; a falsy (empty) input is returned unchanged. -/
def deduplicate_recommendations (text : List Char) : List Char :=
  if text.isEmpty then text
  else joinLines (dedupLines [] (splitLines text))

/-! ## ScanAggregator, i.e. `project_manager.py`

Subprocess results are JSON values.  The fallback combinator only ever
observes (a) the truthiness of a whole result, (b) the truthiness of its
`"error"` entry, and (c) the result itself; dictionary values other than
strings are therefore abstracted to their truthiness. -/

/-- A Python/JSON value as far as the fallback logic observes it. -/
inductive PyVal where
  /-- `None` (also the default of `dict.get`). -/
  | pnone : PyVal
  /-- A string value. -/
  | pstr : List Char → PyVal
  /-- Any other value, abstracted to its truthiness. -/
  | pother : Bool → PyVal
deriving DecidableEq, Repr

/-- A Python dictionary with string keys (keys assumed distinct, as
produced by `json.loads` and the literal dictionaries of the source). -/
def PyDict : Type := List (List Char × PyVal)

instance : DecidableEq PyDict := by unfold PyDict; infer_instance

/-- Python truthiness of a value. -/
def pyTruthy : PyVal → Bool
  | .pnone => false
  | .pstr s => !s.isEmpty
  | .pother b => b

/-- Python `d.get(k)`: the value at the first matching key, else `None`. -/
def dictGet (d : PyDict) (k : List Char) : PyVal :=
  match d.find? (fun e => e.1 = k) with
  | some e => e.2
  | none => .pnone

/-- Does the dictionary have an entry for `k` (regardless of value)? -/
def dictHasKey (d : PyDict) (k : List Char) : Bool :=
  (d.find? (fun e => e.1 = k)).isSome

/-- The acceptance test of the fallback loops
(`if result and not result.get("error"):`): the dictionary must be
truthy (non-empty) and its `"error"` entry falsy or absent. -/
def acceptableResult (d : PyDict) : Bool :=
  !d.isEmpty && !pyTruthy (dictGet d (toL "error"))

/-- The shared fallback-chain combinator
(`_run_semgrep_with_fallback` / `_run_osv_audit_with_fallback`, lines
137-154 and 227-244): return the first acceptable strategy result, or
the structured failure when none is. -/
def runWithFallback (failure : PyDict) : List PyDict → PyDict
  | [] => failure
  | d :: rest => if acceptableResult d then d else runWithFallback failure rest

/-- The all-strategies-failed value of `_run_semgrep_with_fallback`. -/
def semgrepFailure : PyDict :=
  [(toL "error", .pstr (toL "All Semgrep scanning strategies failed")),
   (toL "suggested_fix", .pstr (toL "Check Semgrep installation: pip install semgrep"))]

/-- The source's `ProjectManager._run_semgrep_with_fallback`, as a function of the
three strategy results (the strategies themselves are subprocess calls,
supplied in source order by the caller). -/
def run_semgrep_with_fallback (results : List PyDict) : PyDict :=
  runWithFallback semgrepFailure results

/-- The all-strategies-failed value of `_run_osv_audit_with_fallback`. -/
def osvFailure : PyDict :=
  [(toL "error", .pstr (toL "All OSV-Scanner strategies failed")),
   (toL "suggested_fix", .pstr (toL "Install OSV-Scanner: winget install Google.OSVScanner"))]

/-- The source's `ProjectManager._run_osv_audit_with_fallback`. -/
def run_osv_audit_with_fallback (results : List PyDict) : PyDict :=
  runWithFallback osvFailure results

/-- The `ProjectManager.detect_frameworks` indicator table
(project_manager.py 100-108). -/
def framework_indicators : List (List Char × List (List Char)) :=
  [(toL "flask", [toL "from flask", toL "import Flask", toL "@app.route", toL "flask.Flask"]),
   (toL "django", [toL "from django", toL "DJANGO_SETTINGS", toL "django.db", toL "django.contrib"]),
   (toL "fastapi", [toL "from fastapi", toL "import FastAPI", toL "fastapi.FastAPI"]),
   (toL "express", [toL "require(\"express\")", toL "const express =", toL "express()"]),
   (toL "react", [toL "import React", toL "react-dom", toL "JSX", toL "useState"]),
   (toL "vue", [toL "import Vue", toL "new Vue", toL "vue-create"]),
   (toL "angular", [toL "@angular", toL "import { Component }", toL "angular.module"])]

/-- The source's `ProjectManager.detect_frameworks` (project_manager.py 98-117): a
framework is detected when any of its indicators occurs (case
insensitively) in any sampled file content.  (Python accumulates into a
`set`; modelled as the table-ordered list of detected names.) -/
def detect_frameworks (code_content : List (List Char × List Char)) :
    List (List Char) :=
  framework_indicators.filterMap fun fi =>
    if code_content.any (fun fc =>
        fi.2.any fun ind => containsSub (lowerStr ind) (lowerStr fc.2)) then
      some fi.1
    else none

/-- The independently produced probe results of one `run_scan` call
(each is a separate filesystem walk or subprocess invocation). -/
structure ScanProbes where
  languages : PyVal
  fileStructure : PyVal
  file_contents : List (List Char × List Char)
  /-- The three semgrep strategy results, in source order. -/
  semgrepResults : List PyDict
  potential_issues : PyVal

/-- The bundle assembled by `ProjectManager.run_scan`
(project_manager.py 119-135; the `"structure"` key is `fileStructure`
here because `structure` is a Lean keyword). -/
structure ScanBundle where
  languages : PyVal
  fileStructure : PyVal
  file_contents : List (List Char × List Char)
  semgrep_scan : PyDict
  potential_issues : PyVal
  detected_frameworks : List (List Char)

/-- The source's `ProjectManager.run_scan`: every slot is filled independently;
`detected_frameworks` is computed from the sampled contents. -/
def run_scan (p : ScanProbes) : ScanBundle :=
  { languages := p.languages
    fileStructure := p.fileStructure
    file_contents := p.file_contents
    semgrep_scan := run_semgrep_with_fallback p.semgrepResults
    potential_issues := p.potential_issues
    detected_frameworks := detect_frameworks p.file_contents }

/-! ## Manifest fixing: `ProjectManager.generate_requirements_fix` (project_manager.py 347-377) -/

/-- The fixed version-update table (project_manager.py 349-355), in
insertion order. -/
def version_updates : List (List Char × List Char) :=
  [(toL "requests", toL ">=2.31.0"),
   (toL "flask", toL ">=2.3.3"),
   (toL "django", toL ">=4.2.4"),
   (toL "numpy", toL ">=1.24.0"),
   (toL "setuptools", toL ">=68.0.0")]

/-- The loop body for one line: the line is first `strip()`-ed; stripped
blank lines and `#`-comments pass through (stripped); a stripped line
starting with `pkg==` for the first matching known package becomes
`pkg` + new version; anything else passes through (stripped). -/
def fixLine (line0 : List Char) : List Char :=
  if (stripChars line0).isEmpty || startsWithL (toL "#") (stripChars line0) then
    stripChars line0
  else
    match version_updates.find?
        (fun u => startsWithL (u.1 ++ toL "==") (stripChars line0)) with
    | some u => u.1 ++ u.2
    | none => stripChars line0

/-- The source's `ProjectManager.generate_requirements_fix`: a falsy (empty) input
yields the placeholder comment; otherwise the text is processed line by
line and rejoined. -/
def generate_requirements_fix (current_content : List Char) : List Char :=
  if current_content.isEmpty then
    toL "# No requirements.txt content available for fixing"
  else joinLines ((splitLines current_content).map fixLine)

/-! ## Test fixtures: concrete environments and states used by the
closed counterexample and witness theorems below. -/

/-- An environment in which no directory exists. -/
def envNoDirs : Env :=
  { isDir := fun _ => false
    cwd := toL "/cwd"
    abspath := fun w => '/' :: w
    aiDecision := fun _ _ => []
    fixCode := fun _ => none
    classify := fun _ => []
    optimize := fun _ => []
    genCode := fun _ => [] }

/-- An environment in which exactly the directory `/proj` exists. -/
def envProj : Env := { envNoDirs with isDir := fun w => w = toL "/proj" }

/-- An environment in which the stop-listed name `1` exists as a
directory (both literally and relative to the current directory). -/
def envDirOne : Env :=
  { envNoDirs with
    isDir := fun w => w = toL "1" || w = joinPath (toL "/cwd") (toL "1") }

/-- A state in the middle of a disambiguation: three candidates pending. -/
def stThree : RState :=
  { initState with
    ambiguous_paths := [toL "/d/A", toL "/d/B", toL "/d/C"]
    waiting_for_path_selection := true }

/-- A state with a previously validated project path and no pending
selection. -/
def stWithProject : RState :=
  { initState with current_project_path := some (toL "/proj") }

/-- The conversation-state invariant of the spec: the stored candidate
list is non-empty exactly when a selection is pending. -/
def stateInv (st : RState) : Prop :=
  st.ambiguous_paths ≠ [] ↔ st.waiting_for_path_selection = true

/-- A reasoning-service response with `ASSESSMENT:`, `RECOMMENDATIONS:`
and `QUESTIONS:` sections but no `RISK_LEVEL:` label. -/
def riskLessDecision : List Char :=
  toL "ASSESSMENT: ok\nRECOMMENDATIONS: patch X\nQUESTIONS: null"

/-! ## Lemma library -/

lemma contains_eq_mem (l : List (List Char)) (x : List Char) :
    l.contains x = true ↔ x ∈ l := List.elem_iff

lemma dropExact_append (p r : List Char) : dropExact p (p ++ r) = some r := by
  induction p with
  | nil => rfl
  | cons q qs ih => simp [dropExact, ih]

lemma afterFirst_self_append (p r : List Char) :
    afterFirst p (p ++ r) = some r := by
  cases p with
  | nil =>
    cases r with
    | nil => rfl
    | cons c cs => simp [afterFirst, dropExact]
  | cons q qs =>
    simp only [List.cons_append, afterFirst]
    rw [show dropExact (q :: qs) (q :: qs.append r) = some r from dropExact_append _ _]

lemma containsSub_of_dropExact {p l : List Char}
    (h : (dropExact p l).isSome = true) : containsSub p l = true := by
  cases l with
  | nil => simpa [containsSub] using h
  | cons c cs => simp [containsSub, h]

lemma containsSub_cons_tail {p : List Char} {c : Char} {cs : List Char}
    (h : containsSub p (c :: cs) = false) : containsSub p cs = false := by
  simp only [containsSub, Bool.or_eq_false_iff] at h
  exact h.2

lemma dropExact_not_of_not_contains {p l : List Char}
    (h : containsSub p l = false) : (dropExact p l).isSome = false := by
  cases l with
  | nil => simpa [containsSub] using h
  | cons c cs =>
    simp only [containsSub, Bool.or_eq_false_iff] at h
    exact h.1

lemma afterFirst_eq_none_of_not_contains {p : List Char} :
    ∀ {l : List Char}, containsSub p l = false → afterFirst p l = none := by
  intro l
  induction l with
  | nil =>
    intro h
    simp only [containsSub] at h
    simp only [afterFirst]
    cases hd : dropExact p [] with
    | none => rfl
    | some r => rw [hd] at h; simp at h
  | cons c cs ih =>
    intro h
    have h1 := dropExact_not_of_not_contains h
    have h2 := containsSub_cons_tail h
    simp only [afterFirst]
    cases hd : dropExact p (c :: cs) with
    | none => exact ih h2
    | some r => rw [hd] at h1; simp at h1

lemma afterFirst_cons_of_no_head {p : List Char} {c : Char} {l : List Char}
    (h : dropExact p (c :: l) = none) :
    afterFirst p (c :: l) = afterFirst p l := by
  simp [afterFirst, h]

lemma upToFirst_eq_self_of_not_contains {p : List Char} :
    ∀ {l : List Char}, containsSub p l = false → upToFirst p l = l := by
  intro l
  induction l with
  | nil => intro _; rfl
  | cons c cs ih =>
    intro h
    have h1 := dropExact_not_of_not_contains h
    have h2 := containsSub_cons_tail h
    simp [upToFirst, h1, ih h2]

lemma containsSub_append_tail {p : List Char} :
    ∀ {x y : List Char}, containsSub p (x ++ y) = false → containsSub p y = false := by
  intro x
  induction x with
  | nil => intro y h; simpa using h
  | cons c cs ih =>
    intro y h
    exact ih (containsSub_cons_tail (by simpa using h))

lemma containsSub_dropWhile {p : List Char} {f : Char → Bool} :
    ∀ {l : List Char}, containsSub p l = false →
      containsSub p (l.dropWhile f) = false := by
  intro l
  induction l with
  | nil => intro h; simpa using h
  | cons c cs ih =>
    intro h
    by_cases hf : f c
    · rw [List.dropWhile_cons_of_pos hf]
      exact ih (containsSub_cons_tail h)
    · rwa [List.dropWhile_cons_of_neg hf]

lemma dropWhile_ws_idem (l : List Char) :
    (l.dropWhile isSpaceChar).dropWhile isSpaceChar = l.dropWhile isSpaceChar := by
  induction l with
  | nil => rfl
  | cons a as ih =>
    by_cases h : isSpaceChar a
    · rw [List.dropWhile_cons_of_pos h]; exact ih
    · rw [List.dropWhile_cons_of_neg h, List.dropWhile_cons_of_neg h]

lemma stripChars_dropWhile (l : List Char) :
    stripChars (l.dropWhile isSpaceChar) = stripChars l := by
  simp [stripChars, dropWhile_ws_idem]

lemma stripChars_cons_space (l : List Char) :
    stripChars (' ' :: l) = stripChars l := by
  have h1 : (' ' :: l).dropWhile isSpaceChar = l.dropWhile isSpaceChar := by
    rw [List.dropWhile_cons_of_pos (by simp [isSpaceChar])]
  calc stripChars (' ' :: l)
      = stripChars ((' ' :: l).dropWhile isSpaceChar) := (stripChars_dropWhile _).symm
    _ = stripChars (l.dropWhile isSpaceChar) := by rw [h1]
    _ = stripChars l := stripChars_dropWhile _

/-- A match of `p` at the very start of `x ++ c :: y` either stays inside
`x` or covers the position holding `c`. -/
lemma dropExact_head_cases {p : List Char} :
    ∀ {x : List Char} {c : Char} {y r : List Char},
      dropExact p (x ++ c :: y) = some r →
      (dropExact p x).isSome = true ∨ p.contains c = true := by
  induction p with
  | nil => intro x c y r _; left; simp [dropExact]
  | cons q qs ih =>
    intro x c y r h
    cases x with
    | nil =>
      simp only [List.nil_append, dropExact] at h
      split at h
      · right; simp_all [List.contains_cons]
      · cases h
    | cons d ds =>
      simp only [List.cons_append, dropExact] at h
      split at h
      · rcases ih h with h1 | h1
        · left; simp_all [dropExact]
        · right; simpa [List.contains_cons] using Or.inr h1
      · cases h

/-- When `p` does not contain `c` and does not occur in `x`, the first
occurrence of `p` in `x ++ c :: y` lies in `c :: y`. -/
lemma afterFirst_append_cons {p : List Char} (hc : p.contains c = false) :
    ∀ {x : List Char}, containsSub p x = false →
      afterFirst p (x ++ c :: y) = afterFirst p (c :: y) := by
  intro x
  induction x with
  | nil => intro _; rfl
  | cons d ds ih =>
    intro hx
    have hx2 := containsSub_cons_tail hx
    simp only [List.cons_append, afterFirst]
    cases hd : dropExact p (d :: (ds ++ c :: y)) with
    | some r =>
      rcases dropExact_head_cases (x := d :: ds) hd with h1 | h1
      · have := dropExact_not_of_not_contains
          (p := p) (l := d :: ds) (by simpa using hx)
        rw [this] at h1; cases h1
      · rw [h1] at hc; cases hc
    | none => exact ih hx2

/-- Same decomposition for `containsSub`. -/
lemma containsSub_append_cons {p : List Char} (hc : p.contains c = false) :
    ∀ {x : List Char}, containsSub p x = false →
      containsSub p (x ++ c :: y) = containsSub p (c :: y) := by
  intro x
  induction x with
  | nil => intro _; rfl
  | cons d ds ih =>
    intro hx
    have hx2 := containsSub_cons_tail hx
    simp only [List.cons_append, containsSub]
    cases hd : dropExact p (d :: (ds ++ c :: y)) with
    | some r =>
      rcases dropExact_head_cases (x := d :: ds) hd with h1 | h1
      · have := dropExact_not_of_not_contains
          (p := p) (l := d :: ds) (by simpa using hx)
        rw [this] at h1; cases h1
      · rw [h1] at hc; cases hc
    | none => simpa using ih hx2

/-- The token-scan fallback adds nothing when every word is either
stop-listed or fails both directory tests. -/
lemma collectCandidates_eq_acc (env : Env) :
    ∀ (ws : List (List Char)) (acc : List (List Char)),
      (∀ w ∈ ws, stopWords.contains (lowerStr w) = true ∨
        (env.isDir w = false ∧ env.isDir (joinPath env.cwd w) = false)) →
      collectCandidates env acc ws = acc := by
  intro ws
  induction ws with
  | nil => intro acc _; rfl
  | cons w ws ih =>
    intro acc h
    rcases h w (by simp) with hw | ⟨h1, h2⟩
    · simp only [collectCandidates, hw, if_pos rfl]
      exact ih acc fun v hv => h v (by simp [hv])
    · simp only [collectCandidates, h1, h2]
      have : ∀ v ∈ ws, stopWords.contains (lowerStr v) = true ∨
          (env.isDir v = false ∧ env.isDir (joinPath env.cwd v) = false) :=
        fun v hv => h v (by simp [hv])
      split
      · exact ih acc this
      · simpa using ih acc this

/-- Every candidate produced by the token scan is the `abspath` of some
tested path (or was already in the accumulator). -/
lemma collectCandidates_mem (env : Env) :
    ∀ (ws acc : List (List Char)) (x : List Char),
      x ∈ collectCandidates env acc ws →
      x ∈ acc ∨ ∃ w, x = env.abspath w := by
  intro ws
  induction ws with
  | nil => intro acc x hx; exact Or.inl hx
  | cons w ws ih =>
    intro acc x hx
    simp only [collectCandidates] at hx
    split at hx
    · exact ih acc x hx
    · set acc1 := if env.isDir w then
          (if acc.contains (env.abspath w) then acc else acc ++ [env.abspath w])
        else acc with hacc1
      set p := joinPath env.cwd w with hp
      set acc2 := if env.isDir p then
          (if acc1.contains (env.abspath p) then acc1 else acc1 ++ [env.abspath p])
        else acc1 with hacc2
      rcases ih acc2 x hx with hmem | hw
      · have hmem1 : x ∈ acc1 ∨ ∃ v, x = env.abspath v := by
          rw [hacc2] at hmem
          split at hmem
          · split at hmem
            · exact Or.inl hmem
            · rcases List.mem_append.mp hmem with h | h
              · exact Or.inl h
              · exact Or.inr ⟨p, by simpa using h⟩
          · exact Or.inl hmem
        rcases hmem1 with hmem1 | hw
        · rw [hacc1] at hmem1
          split at hmem1
          · split at hmem1
            · exact Or.inl hmem1
            · rcases List.mem_append.mp hmem1 with h | h
              · exact Or.inl h
              · exact Or.inr ⟨w, by simpa using h⟩
          · exact Or.inl hmem1
        · exact Or.inr hw
      · exact Or.inr hw

/-- A `removeAll` step keeps the head character when it differs from the
head of the pattern. -/
lemma removeAll_cons_ne {p : Char} {ps : List Char} {c : Char} {cs : List Char}
    (hne : c ≠ p) : removeAll p ps (c :: cs) = c :: removeAll p ps cs := by
  unfold removeAll
  simp [removeAllFuel, hne]



/-- A `removeAll` step keeps the head character when the rest of the
pattern fails to match right after it. -/
lemma removeAll_cons_nomatch {p : Char} {ps : List Char} {c : Char} {cs : List Char}
    (hd : dropExact ps cs = none) :
    removeAll p ps (c :: cs) = c :: removeAll p ps cs := by
  unfold removeAll
  simp [removeAllFuel, hd]

/-- A successful `searchFrom` is a successful anchored match somewhere. -/
lemma searchFrom_shape {f : List Char → Option (List Char)} :
    ∀ {l m : List Char}, searchFrom f l = some m → ∃ l', f l' = some m := by
  intro l
  induction l with
  | nil => intro m h; simp [searchFrom] at h
  | cons c cs ih =>
    intro m h
    simp only [searchFrom] at h
    split at h
    next r heq => exact ⟨c :: cs, by rw [heq]; exact h⟩
    next => exact ih h

lemma matchUnixAt_shape {l m : List Char} (h : matchUnixAt l = some m) :
    ∃ r, m = '/' :: r := by
  unfold matchUnixAt at h
  split at h
  · split at h
    · exact ⟨_, (Option.some.inj h).symm⟩
    · cases h
  · cases h

lemma matchWinAt_shape {l m : List Char} (h : matchWinAt l = some m) :
    ∃ c r, m = c :: ':' :: '\\' :: r := by
  unfold matchWinAt at h
  split at h
  · split at h
    · cases h; exact ⟨_, _, rfl⟩
    · cases h
  · cases h

lemma matchKwAt_shape {kw l m : List Char} (h : matchKwAt kw l = some m) :
    ∃ c r, (c = '\\' ∨ c = 's') ∧ m = kw ++ c :: r := by
  unfold matchKwAt at h
  split at h
  next c rest heq =>
    split at h
    next hc =>
      cases h
      rcases (by simpa [isBackslashOrS] using hc : c = '\\' ∨ c = 's') with h | h
      · exact ⟨c, _, Or.inl h, rfl⟩
      · exact ⟨c, _, Or.inr h, rfl⟩
    · cases h
  · cases h

/-- A match of the Unix pattern survives clean-up with its leading `/`. -/
lemma cleanup_unix_ne (r : List Char) :
    cleanupMatch ('/' :: r) ≠ ambiguousMark := by
  intro h
  unfold cleanupMatch at h
  rw [removeAll_cons_ne (by decide)] at h
  rw [removeAll_cons_ne (by decide)] at h
  rw [removeAll_cons_ne (by decide)] at h
  simp [ambiguousMark, toL] at h

/-- A match of the Windows pattern survives clean-up with its first two
characters (letter, then `:`). -/
lemma cleanup_win_ne (c : Char) (r : List Char) :
    cleanupMatch (c :: ':' :: '\\' :: r) ≠ ambiguousMark := by
  intro h
  unfold cleanupMatch at h
  rw [removeAll_cons_nomatch
      (show dropExact (toL "roject ") (':' :: '\\' :: r) = none from rfl)] at h
  rw [removeAll_cons_ne (p := 'p') (c := ':') (by decide)] at h
  rw [removeAll_cons_nomatch
      (show dropExact (toL "irectory ")
        (':' :: removeAll 'p' (toL "roject ") ('\\' :: r)) = none from rfl)] at h
  rw [removeAll_cons_ne (p := 'd') (c := ':') (by decide)] at h
  rw [removeAll_cons_nomatch
      (show dropExact (toL "ath ")
        (':' :: removeAll 'd' (toL "irectory ")
          (removeAll 'p' (toL "roject ") ('\\' :: r))) = none from rfl)] at h
  rw [removeAll_cons_ne (p := 'p') (c := ':') (by decide)] at h
  have h2 := congrArg (fun l => l.get? 1) h
  simp [ambiguousMark, toL] at h2

/-- Helper for the `project X` pattern with a concrete joining character:
clean-up keeps the leading `p`. -/
lemma cleanup_project_ne_aux (c : Char)
    (h1 : ∀ r : List Char,
      dropExact (toL "roject ") ('r' :: 'o' :: 'j' :: 'e' :: 'c' :: 't' :: c :: r)
        = none)
    (r : List Char) :
    cleanupMatch ('p' :: 'r' :: 'o' :: 'j' :: 'e' :: 'c' :: 't' :: c :: r)
      ≠ ambiguousMark := by
  intro h
  unfold cleanupMatch at h
  rw [removeAll_cons_nomatch (h1 r),
      removeAll_cons_ne (p := 'p') (c := 'r') (by decide)] at h
  rw [removeAll_cons_ne (p := 'd') (c := 'p') (by decide),
      removeAll_cons_ne (p := 'd') (c := 'r') (by decide)] at h
  rw [removeAll_cons_nomatch
      (show dropExact (toL "ath ")
        ('r' :: removeAll 'd' (toL "irectory ")
          (removeAll 'p' (toL "roject ")
            ('o' :: 'j' :: 'e' :: 'c' :: 't' :: c :: r))) = none from rfl)] at h
  simp [ambiguousMark, toL] at h

/-- A match of the `project X` pattern survives clean-up with its leading
`p`. -/
lemma cleanup_project_ne (c : Char) (hc : c = '\\' ∨ c = 's') (r : List Char) :
    cleanupMatch (toL "project" ++ c :: r) ≠ ambiguousMark := by
  rcases hc with hc | hc <;> subst hc
  · exact cleanup_project_ne_aux '\\' (fun r => rfl) r
  · exact cleanup_project_ne_aux 's' (fun r => rfl) r

/-- Helper for the `directory X` pattern with a concrete joining
character: clean-up keeps the leading `d`. -/
lemma cleanup_directory_ne_aux (c : Char)
    (h2 : ∀ t : List Char,
      dropExact (toL "irectory ")
        ('i' :: 'r' :: 'e' :: 'c' :: 't' :: 'o' :: 'r' :: 'y' :: c :: t) = none)
    (hcp : c ≠ 'p') (r : List Char) :
    cleanupMatch
      ('d' :: 'i' :: 'r' :: 'e' :: 'c' :: 't' :: 'o' :: 'r' :: 'y' :: c :: r)
      ≠ ambiguousMark := by
  intro h
  unfold cleanupMatch at h
  rw [removeAll_cons_ne (p := 'p') (c := 'd') (by decide),
      removeAll_cons_ne (p := 'p') (c := 'i') (by decide),
      removeAll_cons_ne (p := 'p') (c := 'r') (by decide),
      removeAll_cons_ne (p := 'p') (c := 'e') (by decide),
      removeAll_cons_ne (p := 'p') (c := 'c') (by decide),
      removeAll_cons_ne (p := 'p') (c := 't') (by decide),
      removeAll_cons_ne (p := 'p') (c := 'o') (by decide),
      removeAll_cons_ne (p := 'p') (c := 'r') (by decide),
      removeAll_cons_ne (p := 'p') (c := 'y') (by decide),
      removeAll_cons_ne (p := 'p') (c := c) hcp] at h
  rw [removeAll_cons_nomatch (h2 (removeAll 'p' (toL "roject ") r))] at h
  rw [removeAll_cons_ne (p := 'p') (c := 'd') (by decide)] at h
  simp [ambiguousMark, toL] at h

/-- A match of the `directory X` pattern survives clean-up with its
leading `d`. -/
lemma cleanup_directory_ne (c : Char) (hc : c = '\\' ∨ c = 's') (r : List Char) :
    cleanupMatch (toL "directory" ++ c :: r) ≠ ambiguousMark := by
  rcases hc with hc | hc <;> subst hc
  · exact cleanup_directory_ne_aux '\\' (fun t => rfl) (by decide) r
  · exact cleanup_directory_ne_aux 's' (fun t => rfl) (by decide) r

/-- Helper for the `path X` pattern with a concrete joining character:
clean-up keeps the leading `p`. -/
lemma cleanup_path_ne_aux (c : Char)
    (h1 : ∀ t : List Char,
      dropExact (toL "roject ") ('a' :: 't' :: 'h' :: c :: t) = none)
    (h3 : ∀ t : List Char,
      dropExact (toL "ath ") ('a' :: 't' :: 'h' :: c :: t) = none)
    (hcp : c ≠ 'p') (hcd : c ≠ 'd') (r : List Char) :
    cleanupMatch ('p' :: 'a' :: 't' :: 'h' :: c :: r) ≠ ambiguousMark := by
  intro h
  unfold cleanupMatch at h
  rw [removeAll_cons_nomatch (h1 r),
      removeAll_cons_ne (p := 'p') (c := 'a') (by decide),
      removeAll_cons_ne (p := 'p') (c := 't') (by decide),
      removeAll_cons_ne (p := 'p') (c := 'h') (by decide),
      removeAll_cons_ne (p := 'p') (c := c) hcp] at h
  rw [removeAll_cons_ne (p := 'd') (c := 'p') (by decide),
      removeAll_cons_ne (p := 'd') (c := 'a') (by decide),
      removeAll_cons_ne (p := 'd') (c := 't') (by decide),
      removeAll_cons_ne (p := 'd') (c := 'h') (by decide),
      removeAll_cons_ne (p := 'd') (c := c) hcd] at h
  rw [removeAll_cons_nomatch
      (h3 (removeAll 'd' (toL "irectory ") (removeAll 'p' (toL "roject ") r)))] at h
  simp [ambiguousMark, toL] at h

/-- A match of the `path X` pattern survives clean-up with its leading
`p`. -/
lemma cleanup_path_ne (c : Char) (hc : c = '\\' ∨ c = 's') (r : List Char) :
    cleanupMatch (toL "path" ++ c :: r) ≠ ambiguousMark := by
  rcases hc with hc | hc <;> subst hc
  · exact cleanup_path_ne_aux '\\' (fun t => rfl) (fun t => rfl)
      (by decide) (by decide) r
  · exact cleanup_path_ne_aux 's' (fun t => rfl) (fun t => rfl)
      (by decide) (by decide) r

/-- No pattern-extracted path is ever the literal `"AMBIGUOUS"`
sentinel (pattern matches keep a leading `/`, `p`, `d` or a second
character `:`, never spelling the sentinel). -/
lemma patternSearch_cleanup_ne_mark {input m : List Char}
    (h : patternSearch input = some m) : cleanupMatch m ≠ ambiguousMark := by
  unfold patternSearch at h
  cases h1 : searchFrom matchUnixAt input with
  | some m1 =>
    rw [h1] at h
    cases h
    obtain ⟨l', hl'⟩ := searchFrom_shape h1
    obtain ⟨r, hr⟩ := matchUnixAt_shape hl'
    rw [hr]; exact cleanup_unix_ne r
  | none =>
    rw [h1] at h
    cases h2 : searchFrom matchWinAt input with
    | some m2 =>
      rw [h2] at h
      cases h
      obtain ⟨l', hl'⟩ := searchFrom_shape h2
      obtain ⟨c, r, hr⟩ := matchWinAt_shape hl'
      rw [hr]; exact cleanup_win_ne c r
    | none =>
      rw [h2] at h
      cases h3 : searchFrom (matchKwAt (toL "project")) input with
      | some m3 =>
        rw [h3] at h
        cases h
        obtain ⟨l', hl'⟩ := searchFrom_shape h3
        obtain ⟨c, r, hc, hr⟩ := matchKwAt_shape hl'
        rw [hr]; exact cleanup_project_ne c hc r
      | none =>
        rw [h3] at h
        cases h4 : searchFrom (matchKwAt (toL "directory")) input with
        | some m4 =>
          rw [h4] at h
          cases h
          obtain ⟨l', hl'⟩ := searchFrom_shape h4
          obtain ⟨c, r, hc, hr⟩ := matchKwAt_shape hl'
          rw [hr]; exact cleanup_directory_ne c hc r
        | none =>
          rw [h4] at h
          obtain ⟨l', hl'⟩ := searchFrom_shape h
          obtain ⟨c, r, hc, hr⟩ := matchKwAt_shape hl'
          rw [hr]; exact cleanup_path_ne c hc r

/-- When `extract_path` does not report ambiguity it leaves the state
untouched. -/
lemma extract_path_state_of_ne_mark {env : Env} {st : RState} {input : List Char}
    (h : (extract_path env st input).2 ≠ some ambiguousMark) :
    (extract_path env st input).1 = st := by
  cases hp : patternSearch input with
  | some m => simp [extract_path, hp]
  | none =>
    cases hc : collectCandidates env [] (splitWs input) with
    | nil => simp [extract_path, hp, hc]
    | cons x xs =>
      cases xs with
      | nil => simp [extract_path, hp, hc]
      | cons y ys =>
        have h2 : (extract_path env st input).2 = some ambiguousMark := by
          simp [extract_path, hp, hc]
        exact absurd h2 h

/-- When `extract_path` reports ambiguity the stored candidate list is
non-empty, provided `abspath` only produces absolute (slash-leading)
paths - which is what `os.path.abspath` guarantees. -/
lemma extract_path_mark_nonempty {env : Env} {st : RState} {input : List Char}
    (habs : ∀ w, (env.abspath w).head? = some '/')
    (h : (extract_path env st input).2 = some ambiguousMark) :
    (extract_path env st input).1.ambiguous_paths ≠ [] := by
  cases hp : patternSearch input with
  | some m =>
    have h2 : (extract_path env st input).2 = some (cleanupMatch m) := by
      simp [extract_path, hp]
    rw [h2] at h
    simp only [Option.some.injEq] at h
    exact absurd h (patternSearch_cleanup_ne_mark hp)
  | none =>
    cases hc : collectCandidates env [] (splitWs input) with
    | nil =>
      have h2 : (extract_path env st input).2 = none := by
        simp [extract_path, hp, hc]
      rw [h2] at h; cases h
    | cons x xs =>
      cases xs with
      | nil =>
        have h2 : (extract_path env st input).2 = some x := by
          simp [extract_path, hp, hc]
        rw [h2] at h
        simp only [Option.some.injEq] at h
        have hx : x ∈ collectCandidates env [] (splitWs input) := by
          rw [hc]; simp
        rcases collectCandidates_mem env _ _ _ hx with h0 | ⟨w, hw⟩
        · cases h0
        · rw [hw] at h
          have := habs w
          rw [h] at this
          simp [ambiguousMark, toL] at this
      | cons y ys =>
        have h2 : (extract_path env st input).1.ambiguous_paths = x :: y :: ys := by
          simp [extract_path, hp, hc]
        rw [h2]; simp

/-- The value returned by `extract_path` when no pattern matches and the
token scan finds nothing. -/
lemma extract_path_none {env : Env} {st : RState} {input : List Char}
    (hp : patternSearch input = none)
    (hc : collectCandidates env [] (splitWs input) = []) :
    extract_path env st input = (st, none) := by
  simp [extract_path, hp, hc]

/-- The function `splitLines` never returns the empty list. -/
lemma splitLines_ne_nil : ∀ l : List Char, splitLines l ≠ [] := by
  intro l
  cases l with
  | nil => simp [splitLines]
  | cons c cs =>
    by_cases h : c = '\n'
    · simp [splitLines, h]
    · simp only [splitLines, h, if_false]
      cases splitLines cs <;> simp

/-- Lines produced by `splitLines` contain no newline. -/
lemma mem_splitLines_no_newline :
    ∀ {l x : List Char}, x ∈ splitLines l → '\n' ∉ x := by
  intro l
  induction l with
  | nil => intro x hx; simp [splitLines] at hx; simp [hx]
  | cons c cs ih =>
    intro x hx
    by_cases h : c = '\n'
    · rw [h] at hx
      simp only [splitLines, if_pos rfl] at hx
      rcases List.mem_cons.mp hx with h1 | h1
      · simp [h1]
      · exact ih h1
    · simp only [splitLines, h, if_false] at hx
      cases hs : splitLines cs with
      | nil => exact absurd hs (splitLines_ne_nil cs)
      | cons y ys =>
        rw [hs] at hx
        rcases List.mem_cons.mp hx with h1 | h1
        · subst h1
          intro hmem
          rcases List.mem_cons.mp hmem with h2 | h2
          · exact h h2.symm
          · exact ih (by rw [hs]; exact List.mem_cons_self y ys) h2
        · exact ih (by rw [hs]; exact List.mem_cons_of_mem y h1)

/-- A newline-free text is a single line. -/
lemma splitLines_of_no_newline :
    ∀ {x : List Char}, '\n' ∉ x → splitLines x = [x] := by
  intro x
  induction x with
  | nil => intro _; rfl
  | cons c cs ih =>
    intro h
    have hc : c ≠ '\n' := fun hc => h (by simp [hc])
    have hcs : '\n' ∉ cs := fun hm => h (List.mem_cons_of_mem c hm)
    simp only [splitLines, hc, if_false]
    rw [ih hcs]

/-- Splitting after a newline-free first chunk peels exactly that chunk. -/
lemma splitLines_append_newline :
    ∀ {x : List Char}, '\n' ∉ x →
      ∀ z, splitLines (x ++ '\n' :: z) = x :: splitLines z := by
  intro x
  induction x with
  | nil => intro _ z; simp [splitLines]
  | cons c cs ih =>
    intro h z
    have hc : c ≠ '\n' := fun hc => h (by simp [hc])
    have hcs : '\n' ∉ cs := fun hm => h (List.mem_cons_of_mem c hm)
    simp only [List.cons_append, splitLines, hc, if_false]
    rw [show cs.append ('\n' :: z) = cs ++ '\n' :: z from rfl, ih hcs z]

/-- The function `splitLines` inverts `joinLines` on non-empty lists of newline-free
lines. -/
lemma splitLines_joinLines :
    ∀ {ls : List (List Char)}, ls ≠ [] → (∀ x ∈ ls, '\n' ∉ x) →
      splitLines (joinLines ls) = ls := by
  intro ls
  induction ls with
  | nil => intro h _; cases h rfl
  | cons x xs ih =>
    intro _ hmem
    cases xs with
    | nil =>
      simp only [joinLines]
      exact splitLines_of_no_newline (hmem x (by simp))
    | cons y ys =>
      simp only [joinLines]
      rw [splitLines_append_newline (hmem x (by simp))]
      rw [ih (by simp) (fun v hv => hmem v (List.mem_cons_of_mem x hv))]

/-- Members survive `dropWhile`. -/
lemma mem_of_mem_dropWhileL {f : Char → Bool} :
    ∀ {l : List Char} {a : Char}, a ∈ l.dropWhile f → a ∈ l := by
  intro l
  induction l with
  | nil => intro a ha; simpa using ha
  | cons c cs ih =>
    intro a ha
    by_cases h : f c
    · rw [List.dropWhile_cons_of_pos h] at ha
      exact List.mem_cons_of_mem c (ih ha)
    · rwa [List.dropWhile_cons_of_neg h] at ha

/-- Characters of the stripped text come from the original text. -/
lemma mem_of_mem_stripChars {l : List Char} {a : Char}
    (ha : a ∈ stripChars l) : a ∈ l := by
  unfold stripChars at ha
  rw [List.mem_reverse] at ha
  have h1 := mem_of_mem_dropWhileL ha
  rw [List.mem_reverse] at h1
  exact mem_of_mem_dropWhileL h1

/-- The kept lines are a sublist (in order, verbatim) of the input
lines. -/
lemma dedupLines_sublist :
    ∀ (ls : List (List Char)) (seen : List (List Char)),
      (dedupLines seen ls).Sublist ls := by
  intro ls
  induction ls with
  | nil => intro seen; simp [dedupLines]
  | cons line rest ih =>
    intro seen
    simp only [dedupLines]
    split
    · exact List.Sublist.cons₂ line (ih _)
    · exact List.Sublist.cons line (ih _)

/-- Every kept line has a non-blank stripped form that was not in
`seen`. -/
lemma dedupLines_mem :
    ∀ (ls seen : List (List Char)) (l : List Char),
      l ∈ dedupLines seen ls →
      stripChars l ≠ [] ∧ stripChars l ∉ seen := by
  intro ls
  induction ls with
  | nil => intro seen l hl; simp [dedupLines] at hl
  | cons line rest ih =>
    intro seen l hl
    simp only [dedupLines] at hl
    split at hl
    next hkeep =>
      rcases List.mem_cons.mp hl with h1 | h1
      · subst h1
        have h2 := (Bool.and_eq_true _ _).mp hkeep
        refine ⟨by simpa using h2.1, ?_⟩
        have hthis := h2.2
        simp only [Bool.not_eq_true'] at hthis
        intro hm
        have hc := (contains_eq_mem seen (stripChars l)).mpr hm
        rw [hc] at hthis
        cases hthis
      · have h2 := ih _ l h1
        exact ⟨h2.1, fun hm => h2.2 (List.mem_cons_of_mem _ hm)⟩
    next => exact ih _ l hl

/-- No two kept lines share a stripped form. -/
lemma dedupLines_pairwise :
    ∀ (ls seen : List (List Char)),
      (dedupLines seen ls).Pairwise
        (fun a b => stripChars a ≠ stripChars b) := by
  intro ls
  induction ls with
  | nil => intro seen; simp [dedupLines]
  | cons line rest ih =>
    intro seen
    simp only [dedupLines]
    split
    next hkeep =>
      refine List.Pairwise.cons ?_ (ih _)
      intro b hb hEq
      have h2 := (dedupLines_mem _ _ _ hb).2
      exact h2 (by rw [← hEq]; exact List.mem_cons_self _ _)
    next => exact ih _

/-- Every non-blank input line is represented among the kept lines (or
was already recorded in `seen`). -/
lemma dedupLines_covers :
    ∀ (ls seen : List (List Char)) (l : List Char),
      l ∈ ls → stripChars l ≠ [] →
      stripChars l ∈ seen ∨
        ∃ m, m ∈ dedupLines seen ls ∧ stripChars m = stripChars l := by
  intro ls
  induction ls with
  | nil => intro seen l hl; cases hl
  | cons line rest ih =>
    intro seen l hl hne
    simp only [dedupLines]
    by_cases hkeep : (!(stripChars line).isEmpty && !seen.contains (stripChars line)) = true
    · rw [if_pos hkeep]
      rcases List.mem_cons.mp hl with h1 | h1
      · subst h1
        exact Or.inr ⟨l, List.mem_cons_self _ _, rfl⟩
      · rcases ih (stripChars line :: seen) l h1 hne with h2 | ⟨m, hm, hms⟩
        · rcases List.mem_cons.mp h2 with h3 | h3
          · exact Or.inr ⟨line, List.mem_cons_self _ _, h3.symm⟩
          · exact Or.inl h3
        · exact Or.inr ⟨m, List.mem_cons_of_mem _ hm, hms⟩
    · rw [if_neg hkeep]
      rcases List.mem_cons.mp hl with h1 | h1
      · subst h1
        simp only [Bool.and_eq_true, Bool.not_eq_true', Bool.not_eq_true,
          not_and] at hkeep
        have h3 : seen.contains (stripChars l) = true := by
          by_cases hx : (stripChars l).isEmpty = true
          · exact absurd (by simpa using hx) hne
          · have := hkeep (by simpa using hx)
            simpa using this
        exact Or.inl ((contains_eq_mem _ _).mp h3)
      · exact ih seen l h1 hne

/-- The function `fixLine` never introduces a newline. -/
lemma fixLine_no_newline {line : List Char} (h : '\n' ∉ line) :
    '\n' ∉ fixLine line := by
  unfold fixLine
  split
  · exact fun hm => h (mem_of_mem_stripChars hm)
  · split
    next u hu =>
      have hmem := List.mem_of_find?_eq_some hu
      intro hm
      have : ∀ v ∈ version_updates, '\n' ∉ v.1 ++ v.2 := by decide
      exact this u hmem hm
    next => exact fun hm => h (mem_of_mem_stripChars hm)

/-! ## Claim C8: duplicate-line removal -/

/-- Claim C8, counterexample: the claim says lines differing only in
whitespace are not duplicates and are all kept, but the source compares
the `strip()`-ed forms, so `"a\n a"` collapses to `"a"`: the second
line, which differs from the first by its leading space, is removed. -/
theorem deduplicate_whitespace_variant_dropped :
    deduplicate_recommendations (toL "a\n a") = toL "a"
    ∧ toL "a" ≠ toL "a\n a" := by decide

/-- Claim C8 (amended): `deduplicate_recommendations` removes blank
(whitespace-only) lines and every line whose *stripped* form equals the
stripped form of an earlier kept line; kept lines appear verbatim in
first-occurrence order, their stripped forms are pairwise distinct and
non-empty, every non-blank input line is represented by its stripped
form, and `deduplicate("a\nb\na\n\nb") = "a\nb"`. -/
theorem deduplicate_strip_dedup (text : List Char) (hne : text ≠ []) :
    deduplicate_recommendations text = joinLines (dedupLines [] (splitLines text))
    ∧ (dedupLines [] (splitLines text)).Sublist (splitLines text)
    ∧ (dedupLines [] (splitLines text)).Pairwise
        (fun a b => stripChars a ≠ stripChars b)
    ∧ (∀ l ∈ dedupLines [] (splitLines text), stripChars l ≠ [])
    ∧ (∀ l ∈ splitLines text, stripChars l ≠ [] →
        ∃ m ∈ dedupLines [] (splitLines text), stripChars m = stripChars l)
    ∧ deduplicate_recommendations (toL "a\nb\na\n\nb") = toL "a\nb" := by
  refine ⟨?_, dedupLines_sublist _ _, dedupLines_pairwise _ _, ?_, ?_, by decide⟩
  · have : text.isEmpty = false := by
      cases text with
      | nil => cases hne rfl
      | cons c cs => rfl
    simp [deduplicate_recommendations, this]
  · intro l hl
    exact (dedupLines_mem _ _ _ hl).1
  · intro l hl hne2
    rcases dedupLines_covers (splitLines text) [] l hl hne2 with h | h
    · cases h
    · exact h

/-- Claim C8, witness: the amended theorem applied to the concrete text
`"a\n a"`. -/
theorem deduplicate_strip_dedup_witness :
    toL "a\n a" ≠ [] ∧
      deduplicate_recommendations (toL "a\n a")
        = joinLines (dedupLines [] (splitLines (toL "a\n a"))) :=
  ⟨by decide, (deduplicate_strip_dedup (toL "a\n a") (by decide)).1⟩

/-! ## Claim C9: `generate_requirements_fix` -/

/-- Claim C9, counterexample: the claim says comment lines are preserved
unchanged, character for character, but the source `strip()`s every line
first, so the comment line `"  # hi"` loses its leading spaces. -/
theorem requirements_fix_strips_comment_line :
    generate_requirements_fix (toL "  # hi") = toL "# hi"
    ∧ toL "# hi" ≠ toL "  # hi" := by decide

/-- Claim C9 (amended): `generate_requirements_fix` is a pure
line-by-line transformation in which every line is first stripped of
surrounding whitespace: stripped blank lines and `#`-comment lines pass
through in stripped form, a stripped line starting with `pkg==` for a
known package is rewritten to the package name plus its fixed new
version, every other line passes through stripped, and a falsy (empty)
input yields a placeholder comment instead. -/
theorem requirements_fix_line_by_line (content : List Char) (hne : content ≠ []) :
    splitLines (generate_requirements_fix content) = (splitLines content).map fixLine
    ∧ (∀ line : List Char, stripChars line = [] → fixLine line = [])
    ∧ (∀ line : List Char, startsWithL (toL "#") (stripChars line) = true →
        fixLine line = stripChars line)
    ∧ (∀ (line : List Char) (u : List Char × List Char),
        startsWithL (toL "#") (stripChars line) = false →
        version_updates.find?
          (fun v => startsWithL (v.1 ++ toL "==") (stripChars line)) = some u →
        stripChars line ≠ [] →
        fixLine line = u.1 ++ u.2)
    ∧ (∀ line : List Char, startsWithL (toL "#") (stripChars line) = false →
        version_updates.find?
          (fun v => startsWithL (v.1 ++ toL "==") (stripChars line)) = none →
        fixLine line = stripChars line)
    ∧ generate_requirements_fix []
        = toL "# No requirements.txt content available for fixing" := by
  refine ⟨?_, ?_, ?_, ?_, ?_, by decide⟩
  · have hbe : content.isEmpty = false := by
      cases content with
      | nil => cases hne rfl
      | cons c cs => rfl
    have hbridge : generate_requirements_fix content
        = joinLines ((splitLines content).map fixLine) := by
      simp [generate_requirements_fix, hbe]
    rw [hbridge]
    apply splitLines_joinLines
    · have := splitLines_ne_nil content
      cases hsp : splitLines content with
      | nil => exact absurd hsp this
      | cons x xs => simp
    · intro x hx
      obtain ⟨y, hy, hxy⟩ := List.mem_map.mp hx
      rw [← hxy]
      exact fixLine_no_newline (mem_splitLines_no_newline hy)
  · intro line h
    simp [fixLine, h]
  · intro line h
    have hor : ((stripChars line).isEmpty
        || startsWithL (toL "#") (stripChars line)) = true := by simp [h]
    simp [fixLine, hor]
  · intro line u hsharp hfind hne2
    have hbe : (stripChars line).isEmpty = false := by
      cases hst : stripChars line with
      | nil => exact absurd hst hne2
      | cons c cs => rfl
    simp [fixLine, hbe, hsharp, hfind]
  · intro line hsharp hfind
    by_cases hbe : (stripChars line).isEmpty = true
    · simp [fixLine, hbe]
    · simp only [Bool.not_eq_true] at hbe
      simp [fixLine, hbe, hsharp, hfind]

/-- Claim C9, witness: the amended theorem applied to a concrete
manifest exercising a comment, a blank line, a known pinned package and
an unknown line. -/
theorem requirements_fix_line_by_line_witness :
    toL "requests==2.25.1\n\n # c\nother==1.0" ≠ [] ∧
      splitLines (generate_requirements_fix
          (toL "requests==2.25.1\n\n # c\nother==1.0"))
        = (splitLines (toL "requests==2.25.1\n\n # c\nother==1.0")).map fixLine :=
  ⟨by decide,
   (requirements_fix_line_by_line
      (toL "requests==2.25.1\n\n # c\nother==1.0") (by decide)).1⟩

/-! ## Claim C5: the external-tool fallback chains -/

/-- Claim C5, counterexample: the claim says the chain returns the result
of the first strategy whose dictionary has no `error` key; the empty
dictionary has no `error` key, yet the loop's truthiness test
(`if result and not result.get("error")`) rejects it and the chain moves
on, here all the way to the structured failure. -/
theorem fallback_skips_error_free_empty_result :
    dictHasKey ([] : PyDict) (toL "error") = false
    ∧ run_semgrep_with_fallback [[]] = semgrepFailure
    ∧ semgrepFailure ≠ ([] : PyDict) := by decide

/-- Claim C5 (amended): the fallback combinator returns the first
strategy result that is truthy (a non-empty dictionary) and whose
`error` entry is absent or falsy, ignoring every later strategy; a
result failing that test - including an empty, error-free dictionary or
one with a falsy `error` value present - is skipped; when every strategy
result fails the test, the chain returns the structured failure carrying
both `error` and `suggested_fix`, and all other `run_scan` slots are
filled independently of the pattern-scan outcome. -/
theorem fallback_first_acceptable :
    (∀ (failure d : PyDict) (rest : List PyDict), acceptableResult d = true →
      runWithFallback failure (d :: rest) = d)
    ∧ (∀ (failure d : PyDict) (rest : List PyDict), acceptableResult d = false →
      runWithFallback failure (d :: rest) = runWithFallback failure rest)
    ∧ (∀ rs : List PyDict, rs.all (fun d => !acceptableResult d) = true →
      run_semgrep_with_fallback rs = semgrepFailure
      ∧ run_osv_audit_with_fallback rs = osvFailure)
    ∧ dictHasKey semgrepFailure (toL "error") = true
    ∧ dictHasKey semgrepFailure (toL "suggested_fix") = true
    ∧ dictHasKey osvFailure (toL "error") = true
    ∧ dictHasKey osvFailure (toL "suggested_fix") = true
    ∧ (∀ p : ScanProbes,
        (run_scan p).languages = p.languages
        ∧ (run_scan p).fileStructure = p.fileStructure
        ∧ (run_scan p).file_contents = p.file_contents
        ∧ (run_scan p).potential_issues = p.potential_issues
        ∧ (run_scan p).detected_frameworks = detect_frameworks p.file_contents
        ∧ (run_scan p).semgrep_scan = run_semgrep_with_fallback p.semgrepResults) := by
  have hall : ∀ (failure : PyDict) (rs : List PyDict),
      rs.all (fun d => !acceptableResult d) = true →
      runWithFallback failure rs = failure := by
    intro failure rs
    induction rs with
    | nil => intro _; rfl
    | cons d rest ih =>
      intro h
      have h2 := List.all_eq_true.mp h
      have hd : acceptableResult d = false := by
        have := h2 d (by simp)
        simpa using this
      simp only [runWithFallback, hd, if_false]
      exact ih (List.all_eq_true.mpr fun v hv => h2 v (by simp [hv]))
  refine ⟨?_, ?_, ?_, by decide, by decide, by decide, by decide, ?_⟩
  · intro failure d rest h
    simp [runWithFallback, h]
  · intro failure d rest h
    simp [runWithFallback, h]
  · intro rs h
    exact ⟨hall _ _ h, hall _ _ h⟩
  · intro p
    exact ⟨rfl, rfl, rfl, rfl, rfl, rfl⟩

/-- Claim C5, witness: the amended theorem applied to concrete strategy
results - an accepted first result, a skipped empty result, and an
all-failed chain. -/
theorem fallback_first_acceptable_witness :
    acceptableResult [(toL "results", PyVal.pstr (toL "ok"))] = true
    ∧ runWithFallback semgrepFailure
        [[(toL "results", PyVal.pstr (toL "ok"))], [(toL "error", PyVal.pstr (toL "boom"))]]
      = [(toL "results", PyVal.pstr (toL "ok"))]
    ∧ ([[(toL "error", PyVal.pstr (toL "no semgrep"))], [], [(toL "error", PyVal.pother true)]].all
        (fun d => !acceptableResult d)) = true
    ∧ run_semgrep_with_fallback
        [[(toL "error", PyVal.pstr (toL "no semgrep"))], [], [(toL "error", PyVal.pother true)]]
      = semgrepFailure := by
  refine ⟨by decide, ?_, by decide, ?_⟩
  · exact fallback_first_acceptable.1 semgrepFailure _ _ (by decide)
  · exact (fallback_first_acceptable.2.2.1 _ (by decide)).1

/-! ## Claim C2: `extract_path` on inputs without existing directories -/

/-- Claim C2, counterexample: `"/a/b"` names no existing directory (in
`envNoDirs` nothing exists), yet `extract_path` returns `"/a/b"`: the
pattern phase returns its match without any existence check, so the
claim's "including a non-existing path-shaped substring" clause fails. -/
theorem extract_path_returns_nonexistent_pattern :
    ((splitWs (toL "/a/b")).all fun w =>
        !envNoDirs.isDir w && !envNoDirs.isDir (joinPath envNoDirs.cwd w)) = true
    ∧ (extract_path envNoDirs initState (toL "/a/b")).2 = some (toL "/a/b")
    ∧ (extract_path envNoDirs initState (toL "/a/b")).2 ≠ none := by decide

/-- Claim C2 (amended): when no path-shaped pattern matches the input
and no whitespace token names an existing directory (literally or
joined to the current directory), `extract_path` returns `None`. -/
theorem extract_path_none_of_no_dir_tokens (env : Env) (st : RState)
    (input : List Char)
    (hp : patternSearch input = none)
    (hall : ((splitWs input).all fun w =>
        !env.isDir w && !env.isDir (joinPath env.cwd w)) = true) :
    (extract_path env st input).2 = none := by
  have hc : collectCandidates env [] (splitWs input) = [] := by
    apply collectCandidates_eq_acc
    intro w hw
    have h2 := List.all_eq_true.mp hall w hw
    rw [Bool.and_eq_true, Bool.not_eq_true', Bool.not_eq_true'] at h2
    exact Or.inr h2
  rw [extract_path_none hp hc]

/-- Claim C2, witness: the amended theorem applied to an input whose
only token is not a directory. -/
theorem extract_path_none_of_no_dir_tokens_witness :
    patternSearch (toL "analyze something") = none
    ∧ (extract_path envNoDirs initState (toL "analyze something")).2 = none :=
  ⟨by decide,
   extract_path_none_of_no_dir_tokens envNoDirs initState
     (toL "analyze something") (by decide) (by decide)⟩

/-! ## Claim C10: the token-scan stop list -/

/-- Claim C10: a token whose lowercase form is stop-listed is never
tested for directory existence, so an input (matching no path pattern)
whose only existing-directory tokens are stop words yields `None` -
even in an environment where the stop words do name existing
directories. -/
theorem extract_path_skips_stoplist_tokens (env : Env) (st : RState)
    (input : List Char)
    (hp : patternSearch input = none)
    (hall : ((splitWs input).all fun w =>
        stopWords.contains (lowerStr w) ||
          (!env.isDir w && !env.isDir (joinPath env.cwd w))) = true) :
    (extract_path env st input).2 = none := by
  have hc : collectCandidates env [] (splitWs input) = [] := by
    apply collectCandidates_eq_acc
    intro w hw
    have h2 := List.all_eq_true.mp hall w hw
    rw [Bool.or_eq_true] at h2
    rcases h2 with h2 | h2
    · exact Or.inl h2
    · rw [Bool.and_eq_true, Bool.not_eq_true', Bool.not_eq_true'] at h2
      exact Or.inr h2
  rw [extract_path_none hp hc]

/-- Claim C10, witness: in `envDirOne` the stop-listed name `1` exists
as a directory, and `"analyze 1"` still extracts no path. -/
theorem extract_path_skips_stoplist_tokens_witness :
    envDirOne.isDir (toL "1") = true
    ∧ envDirOne.isDir (joinPath envDirOne.cwd (toL "1")) = true
    ∧ (extract_path envDirOne initState (toL "analyze 1")).2 = none :=
  ⟨by decide, by decide,
   extract_path_skips_stoplist_tokens envDirOne initState (toL "analyze 1")
     (by decide) (by decide)⟩

/-! ## Claim C3: the keyword-prefixed extraction patterns -/

/-- Claim C3: the source's comments document that
`r'project[\\s][^\\s]*'` should match phrases like `"project my-app"`,
but inside a raw string `[\\s]` is the class {backslash, letter s}, not
whitespace: `"project my-app"` matches no pattern and falls through to
the token scan, which finds nothing when `my-app` is not a directory -
the code returns `None` where its own comments (and the spec) promise
`"my-app"`.  The pattern instead fires on `"projects foo"`, where the
literal `s` absorbs the class. -/
theorem keyword_patterns_never_match_spaced_phrase :
    patternSearch (toL "project my-app") = none
    ∧ envNoDirs.isDir (toL "my-app") = false
    ∧ (extract_path envNoDirs initState (toL "project my-app")).2 = none
    ∧ patternSearch (toL "projects foo") = some (toL "projects foo") := by decide

/-! ## Claim C1: project request with a stored `current_project_path` -/

/-- Claim C1, counterexample: in `stWithProject` the previously
validated directory `/proj` is stored and still exists, the input
`"scan for security issues"` is a project request, and no path can be
extracted from it - yet `analyze` answers with the question asking for
a path and constructs no `ProjectManager`, instead of re-using the
stored path and scanning as the claim states. -/
theorem analyze_ignores_stored_project_path :
    stWithProject.current_project_path = some (toL "/proj")
    ∧ stWithProject.waiting_for_path_selection = false
    ∧ envProj.isDir (toL "/proj") = true
    ∧ is_project_request (toL "scan for security issues") = true
    ∧ (analyze envProj stWithProject (toL "scan for security issues")).2
        = toL "QUESTION: Please provide the path to the project you want me to analyze."
    ∧ (analyze envProj stWithProject (toL "scan for security issues")).1.project_manager
        = none := by decide

/-- Claim C1 (amended): when no selection is pending, the input is a
project request and path extraction yields nothing, `analyze` asks for
a path and changes nothing but the stored original request - it never
consults `current_project_path`, whatever its value. -/
theorem analyze_no_path_always_asks (env : Env) (st : RState) (input : List Char)
    (hw : st.waiting_for_path_selection = false)
    (hproj : is_project_request input = true)
    (hp : patternSearch input = none)
    (hc : collectCandidates env [] (splitWs input) = []) :
    analyze env st input =
      ({ st with original_request := input },
       toL "QUESTION: Please provide the path to the project you want me to analyze.") := by
  have hex : extract_path env { st with original_request := input } input
      = ({ st with original_request := input }, none) := extract_path_none hp hc
  rw [hw] at hex
  simp [analyze, hw, analyzeFresh, hex, hproj, optTruthy, ambiguousMark, toL]

/-- Claim C1, witness: the amended theorem applied to the concrete
state with a stored project path. -/
theorem analyze_no_path_always_asks_witness :
    stWithProject.waiting_for_path_selection = false
    ∧ analyze envProj stWithProject (toL "scan for security issues")
        = ({ stWithProject with original_request := toL "scan for security issues" },
           toL "QUESTION: Please provide the path to the project you want me to analyze.") :=
  ⟨by decide,
   analyze_no_path_always_asks envProj stWithProject
     (toL "scan for security issues") (by decide) (by decide) (by decide) (by decide)⟩

/-! ## Claim C7: `handle_path_selection` -/

/-- Claim C7: a numeric input is a 1-based index - in range it selects
the corresponding candidate and clears the pending-selection state, out
of range (including 0 and negatives) it is invalid; a non-numeric input
selects itself when it names an existing directory and is invalid
otherwise; every invalid outcome returns the state unchanged, keeping
the candidate list and the awaiting flag. -/
theorem handle_path_selection_selects (env : Env) (st : RState) (input : List Char) :
    (∀ i : Int, parseIntQ (stripChars input) = some i →
      ((1 ≤ i ∧ i ≤ (st.ambiguous_paths.length : Int)) →
        handle_path_selection env st input =
          ({ st with ambiguous_paths := [], waiting_for_path_selection := false },
           st.ambiguous_paths.getD (i - 1).toNat []))
      ∧ (¬(1 ≤ i ∧ i ≤ (st.ambiguous_paths.length : Int)) →
        handle_path_selection env st input =
          (st, toL "QUESTION: Invalid selection. Please choose a number from the list.")))
    ∧ (parseIntQ (stripChars input) = none →
      (env.isDir input = true →
        handle_path_selection env st input =
          ({ st with ambiguous_paths := [], waiting_for_path_selection := false },
           input))
      ∧ (env.isDir input = false →
        handle_path_selection env st input =
          (st, toL "QUESTION: Please enter a valid number from the list or provide a full path."))) := by
  constructor
  · intro i hi
    constructor
    · intro hin
      have hcond : 0 ≤ i - 1 ∧ i - 1 < (st.ambiguous_paths.length : Int) := by omega
      simp only [handle_path_selection, hi]
      rw [if_pos hcond]
    · intro hout
      have hcond : ¬(0 ≤ i - 1 ∧ i - 1 < (st.ambiguous_paths.length : Int)) := by omega
      simp only [handle_path_selection, hi]
      rw [if_neg hcond]
  · intro hn
    constructor
    · intro hd
      simp [handle_path_selection, hn, hd]
    · intro hd
      simp [handle_path_selection, hn, hd]

/-- Claim C7, witness: with candidates `[/d/A, /d/B, /d/C]`, input `"2"`
selects `/d/B` and clears the state, `"5"` and a non-numeric non-path
input are invalid and leave the state unchanged. -/
theorem handle_path_selection_selects_witness :
    handle_path_selection envNoDirs stThree (toL "2")
      = ({ stThree with ambiguous_paths := [], waiting_for_path_selection := false },
         toL "/d/B")
    ∧ handle_path_selection envNoDirs stThree (toL "5")
      = (stThree, toL "QUESTION: Invalid selection. Please choose a number from the list.")
    ∧ handle_path_selection envNoDirs stThree (toL "not-a-number-or-path")
      = (stThree, toL "QUESTION: Please enter a valid number from the list or provide a full path.") := by
  refine ⟨?_, ?_, ?_⟩
  · have h := ((handle_path_selection_selects envNoDirs stThree (toL "2")).1
      2 (by decide)).1 (by decide)
    rw [h]; decide
  · exact ((handle_path_selection_selects envNoDirs stThree (toL "5")).1
      5 (by decide)).2 (by decide)
  · exact ((handle_path_selection_selects envNoDirs stThree
      (toL "not-a-number-or-path")).2 (by decide)).2 (by decide)

/-! ## Claim C6: the ambiguity invariant -/

/-- When `handle_path_selection` returns, the invariant is preserved. -/
lemma handle_path_selection_inv (env : Env) (st : RState) (input : List Char)
    (hinv : stateInv st) :
    stateInv (handle_path_selection env st input).1 := by
  unfold handle_path_selection
  cases parseIntQ (stripChars input) with
  | some n =>
    simp only
    split
    · simp [stateInv]
    · exact hinv
  | none =>
    simp only
    split
    · simp [stateInv]
    · exact hinv

/-- When `analyzeFresh` returns, the invariant is preserved (given that
`abspath` produces absolute paths, as `os.path.abspath` does). -/
lemma analyzeFresh_inv (env : Env) (st : RState) (input : List Char)
    (habs : ∀ w, (env.abspath w).head? = some '/')
    (hinv : stateInv st) :
    stateInv (analyzeFresh env st input).1 := by
  by_cases hmark :
      (extract_path env { st with original_request := input } input).2
        = some ambiguousMark
  · have h1 := extract_path_mark_nonempty habs hmark
    simp only [analyzeFresh, hmark, if_pos]
    simpa [stateInv] using h1
  · have h2 := extract_path_state_of_ne_mark hmark
    simp only [analyzeFresh]
    rw [if_neg hmark, h2]
    split
    · split
      · split
        · simpa [stateInv] using hinv
        · simpa [stateInv] using hinv
      · simpa [stateInv] using hinv
    · simpa [stateInv] using hinv

/-- Claim C6: `ambiguous_paths` is non-empty exactly when
`waiting_for_path_selection` is set - the invariant holds initially and
is preserved by every complete call of `analyze` and of
`handle_path_selection` (under the faithful assumption that
`os.path.abspath` returns absolute, slash-leading paths). -/
theorem conversation_state_invariant :
    stateInv initState
    ∧ (∀ (env : Env) (st : RState) (input : List Char),
        (∀ w, (env.abspath w).head? = some '/') →
        stateInv st →
        stateInv (analyze env st input).1
        ∧ stateInv (handle_path_selection env st input).1) := by
  constructor
  · simp [stateInv, initState]
  · intro env st input habs hinv
    refine ⟨?_, handle_path_selection_inv env st input hinv⟩
    unfold analyze
    by_cases hw : st.waiting_for_path_selection
    · rw [if_pos hw]
      have hh := handle_path_selection_inv env st input hinv
      split
      · exact hh
      · exact analyzeFresh_inv env _ _ habs (by simpa [stateInv] using hh)
    · rw [if_neg hw]
      exact analyzeFresh_inv env st input habs hinv

/-- Claim C6, witness: the invariant theorem applied to a concrete
mid-disambiguation state and a concrete selection input. -/
theorem conversation_state_invariant_witness :
    stateInv (analyze envNoDirs stThree (toL "2")).1
    ∧ stateInv (handle_path_selection envNoDirs stThree (toL "2")).1 :=
  (conversation_state_invariant.2 envNoDirs stThree (toL "2")
    (fun w => rfl) (by simp [stateInv, stThree]))

/-! ## Claim C4: report extraction without a `RISK_LEVEL:` label -/

/-- Claim C4, counterexample: on a response missing `RISK_LEVEL:`, risk
defaults to `"Unknown"` and recommendations/questions are extracted as
usual, but the assessment regex's lookahead only knows `RISK_LEVEL:`, so
the assessment field swallows the whole remainder of the text -
`"ok\nRECOMMENDATIONS: patch X\nQUESTIONS: null"` - instead of stopping
at the next label as the claim states. -/
theorem report_missing_risk_swallows_sections :
    (reportExtract riskLessDecision).risk_level = toL "Unknown"
    ∧ (reportExtract riskLessDecision).recommendations = toL "patch X"
    ∧ (reportExtract riskLessDecision).questions = toL "null"
    ∧ (reportExtract riskLessDecision).assessment
        = toL "ok\nRECOMMENDATIONS: patch X\nQUESTIONS: null"
    ∧ (reportExtract riskLessDecision).assessment ≠ toL "ok" := by decide

/-- Claim C4 (amended): for a response of the shape
`ASSESSMENT: a\nRECOMMENDATIONS: r\nQUESTIONS: q` with no `RISK_LEVEL:`
label (and no stray label occurrences), extraction yields
risk_level = "Unknown", and the recommendations and questions fields
equal those extracted from the same response with a `RISK_LEVEL: Low`
section present - but the assessment field runs to the end of the text,
containing the `RECOMMENDATIONS:` and `QUESTIONS:` sections, instead of
stopping at the next expected label. -/
theorem report_missing_risk_amended (a r q : List Char)
    (h1 : containsSub (toL "RISK_LEVEL:")
      (toL "ASSESSMENT: " ++ (a ++ (toL "\nRECOMMENDATIONS: "
        ++ (r ++ (toL "\nQUESTIONS: " ++ q))))) = false)
    (h2 : containsSub (toL "RECOMMENDATIONS:")
      (toL "ASSESSMENT: " ++ a) = false)
    (h2' : containsSub (toL "RECOMMENDATIONS:")
      (toL "ASSESSMENT: " ++ (a ++ toL "\nRISK_LEVEL: Low")) = false)
    (h3 : containsSub (toL "QUESTIONS:")
      (toL "ASSESSMENT: " ++ (a ++ (toL "\nRECOMMENDATIONS: " ++ r))) = false)
    (h3' : containsSub (toL "QUESTIONS:")
      (toL "ASSESSMENT: " ++ (a ++ (toL "\nRISK_LEVEL: Low\nRECOMMENDATIONS: "
        ++ r))) = false) :
    (reportExtract (toL "ASSESSMENT: " ++ (a ++ (toL "\nRECOMMENDATIONS: "
        ++ (r ++ (toL "\nQUESTIONS: " ++ q)))))).risk_level = toL "Unknown"
    ∧ (reportExtract (toL "ASSESSMENT: " ++ (a ++ (toL "\nRECOMMENDATIONS: "
        ++ (r ++ (toL "\nQUESTIONS: " ++ q)))))).assessment
      = stripChars (a ++ (toL "\nRECOMMENDATIONS: "
        ++ (r ++ (toL "\nQUESTIONS: " ++ q))))
    ∧ (reportExtract (toL "ASSESSMENT: " ++ (a ++ (toL "\nRECOMMENDATIONS: "
        ++ (r ++ (toL "\nQUESTIONS: " ++ q)))))).recommendations
      = (reportExtract (toL "ASSESSMENT: " ++ (a ++ (toL "\nRISK_LEVEL: Low\nRECOMMENDATIONS: "
        ++ (r ++ (toL "\nQUESTIONS: " ++ q)))))).recommendations
    ∧ (reportExtract (toL "ASSESSMENT: " ++ (a ++ (toL "\nRECOMMENDATIONS: "
        ++ (r ++ (toL "\nQUESTIONS: " ++ q)))))).questions
      = (reportExtract (toL "ASSESSMENT: " ++ (a ++ (toL "\nRISK_LEVEL: Low\nRECOMMENDATIONS: "
        ++ (r ++ (toL "\nQUESTIONS: " ++ q)))))).questions := by
  have hNR : ∀ Z : List Char, toL "\nRECOMMENDATIONS: " ++ Z
      = '\n' :: (toL "RECOMMENDATIONS: " ++ Z) := fun Z => rfl
  have hNQ : ∀ Z : List Char, toL "\nQUESTIONS: " ++ Z
      = '\n' :: (toL "QUESTIONS: " ++ Z) := fun Z => rfl
  have hRLlow : ∀ Z : List Char, toL "\nRISK_LEVEL: Low\nRECOMMENDATIONS: " ++ Z
      = toL "\nRISK_LEVEL: Low" ++ ('\n' :: (toL "RECOMMENDATIONS: " ++ Z)) :=
    fun Z => rfl
  have hAL : ∀ Z : List Char, toL "ASSESSMENT: " ++ Z
      = toL "ASSESSMENT:" ++ (' ' :: Z) := fun Z => rfl
  have hRCs : ∀ Z : List Char, toL "RECOMMENDATIONS: " ++ Z
      = toL "RECOMMENDATIONS:" ++ (' ' :: Z) := fun Z => rfl
  have hQLs : ∀ Z : List Char, toL "QUESTIONS: " ++ Z
      = toL "QUESTIONS:" ++ (' ' :: Z) := fun Z => rfl
  -- the recommendations sections of both texts reduce to the same suffix
  have h_rec₂ : afterFirst (toL "RECOMMENDATIONS:")
      (toL "ASSESSMENT: " ++ (a ++ (toL "\nRECOMMENDATIONS: "
        ++ (r ++ (toL "\nQUESTIONS: " ++ q)))))
      = some (' ' :: (r ++ (toL "\nQUESTIONS: " ++ q))) := by
    have hsplit : toL "ASSESSMENT: " ++ (a ++ (toL "\nRECOMMENDATIONS: "
        ++ (r ++ (toL "\nQUESTIONS: " ++ q))))
        = (toL "ASSESSMENT: " ++ a) ++ ('\n' :: (toL "RECOMMENDATIONS: "
          ++ (r ++ (toL "\nQUESTIONS: " ++ q)))) := by
      simp only [hNR, List.append_assoc]
    rw [hsplit, afterFirst_append_cons (by decide) h2,
      afterFirst_cons_of_no_head (by rfl), hRCs]
    exact afterFirst_self_append _ _
  have h_rec₁ : afterFirst (toL "RECOMMENDATIONS:")
      (toL "ASSESSMENT: " ++ (a ++ (toL "\nRISK_LEVEL: Low\nRECOMMENDATIONS: "
        ++ (r ++ (toL "\nQUESTIONS: " ++ q)))))
      = some (' ' :: (r ++ (toL "\nQUESTIONS: " ++ q))) := by
    have hsplit : toL "ASSESSMENT: " ++ (a ++ (toL "\nRISK_LEVEL: Low\nRECOMMENDATIONS: "
        ++ (r ++ (toL "\nQUESTIONS: " ++ q))))
        = (toL "ASSESSMENT: " ++ (a ++ toL "\nRISK_LEVEL: Low"))
          ++ ('\n' :: (toL "RECOMMENDATIONS: "
            ++ (r ++ (toL "\nQUESTIONS: " ++ q)))) := by
      simp only [hRLlow, List.append_assoc]
    rw [hsplit, afterFirst_append_cons (by decide) h2',
      afterFirst_cons_of_no_head (by rfl), hRCs]
    exact afterFirst_self_append _ _
  -- the questions sections of both texts reduce to the same suffix
  have h_q₂ : afterFirst (toL "QUESTIONS:")
      (toL "ASSESSMENT: " ++ (a ++ (toL "\nRECOMMENDATIONS: "
        ++ (r ++ (toL "\nQUESTIONS: " ++ q)))))
      = some (' ' :: q) := by
    have hsplit : toL "ASSESSMENT: " ++ (a ++ (toL "\nRECOMMENDATIONS: "
        ++ (r ++ (toL "\nQUESTIONS: " ++ q))))
        = (toL "ASSESSMENT: " ++ (a ++ (toL "\nRECOMMENDATIONS: " ++ r)))
          ++ ('\n' :: (toL "QUESTIONS: " ++ q)) := by
      simp only [hNQ, List.append_assoc]
    rw [hsplit, afterFirst_append_cons (by decide) h3,
      afterFirst_cons_of_no_head (by rfl), hQLs]
    exact afterFirst_self_append _ _
  have h_q₁ : afterFirst (toL "QUESTIONS:")
      (toL "ASSESSMENT: " ++ (a ++ (toL "\nRISK_LEVEL: Low\nRECOMMENDATIONS: "
        ++ (r ++ (toL "\nQUESTIONS: " ++ q)))))
      = some (' ' :: q) := by
    have hsplit : toL "ASSESSMENT: " ++ (a ++ (toL "\nRISK_LEVEL: Low\nRECOMMENDATIONS: "
        ++ (r ++ (toL "\nQUESTIONS: " ++ q))))
        = (toL "ASSESSMENT: " ++ (a ++ (toL "\nRISK_LEVEL: Low\nRECOMMENDATIONS: " ++ r)))
          ++ ('\n' :: (toL "QUESTIONS: " ++ q)) := by
      simp only [hNQ, List.append_assoc]
    rw [hsplit, afterFirst_append_cons (by decide) h3',
      afterFirst_cons_of_no_head (by rfl), hQLs]
    exact afterFirst_self_append _ _
  -- the assessment section of the risk-less text
  have h_a₂ : afterFirst (toL "ASSESSMENT:")
      (toL "ASSESSMENT: " ++ (a ++ (toL "\nRECOMMENDATIONS: "
        ++ (r ++ (toL "\nQUESTIONS: " ++ q)))))
      = some (' ' :: (a ++ (toL "\nRECOMMENDATIONS: "
        ++ (r ++ (toL "\nQUESTIONS: " ++ q))))) := by
    rw [hAL]
    exact afterFirst_self_append _ _
  have h_risk_none : afterFirst (toL "RISK_LEVEL:")
      (toL "ASSESSMENT: " ++ (a ++ (toL "\nRECOMMENDATIONS: "
        ++ (r ++ (toL "\nQUESTIONS: " ++ q))))) = none :=
    afterFirst_eq_none_of_not_contains h1
  have h_risk_tail : containsSub (toL "RISK_LEVEL:")
      (' ' :: (a ++ (toL "\nRECOMMENDATIONS: "
        ++ (r ++ (toL "\nQUESTIONS: " ++ q))))) = false := by
    apply containsSub_append_tail (x := toL "ASSESSMENT:")
    rw [← hAL]
    exact h1
  refine ⟨?_, ?_, ?_, ?_⟩
  · simp only [reportExtract, extractSection, h_risk_none, Option.map_none']
    rfl
  · simp only [reportExtract, extractSection, h_a₂, h_risk_none, Option.map_some',
      Option.getD_some]
    rw [upToFirst_eq_self_of_not_contains
        (containsSub_dropWhile h_risk_tail),
      stripChars_dropWhile, stripChars_cons_space]
  · simp only [reportExtract, extractSection, h_rec₂, h_rec₁]
  · simp only [reportExtract, extractFinalSection, h_q₂, h_q₁]

/-- Claim C4, witness: the amended theorem applied to the concrete
sections `ok` / `patch X` / `null`. -/
theorem report_missing_risk_amended_witness :
    (reportExtract (toL "ASSESSMENT: " ++ (toL "ok" ++ (toL "\nRECOMMENDATIONS: "
        ++ (toL "patch X" ++ (toL "\nQUESTIONS: " ++ toL "null")))))).risk_level
      = toL "Unknown"
    ∧ (reportExtract (toL "ASSESSMENT: " ++ (toL "ok" ++ (toL "\nRECOMMENDATIONS: "
        ++ (toL "patch X" ++ (toL "\nQUESTIONS: " ++ toL "null")))))).assessment
      = stripChars (toL "ok" ++ (toL "\nRECOMMENDATIONS: "
        ++ (toL "patch X" ++ (toL "\nQUESTIONS: " ++ toL "null")))) :=
  have h := report_missing_risk_amended (toL "ok") (toL "patch X") (toL "null")
    (by decide) (by decide) (by decide) (by decide) (by decide)
  ⟨h.1, h.2.1⟩

end AICS
